import Mathlib

/-!
Shallow embedding of `src/blockchain.py`, a minimal single-node blockchain
(hash-linked ledger, proof-of-work puzzle, longest-chain consensus).

Library primitives are modelled as explicit parameters or inputs:
* `sha256hex : String → String` stands for
  `hashlib.sha256(s.encode()).hexdigest()` (UTF-8 encode then SHA-256
  hex digest);
* `jsonDumps : Block → String` stands for
  `json.dumps(block, sort_keys=True)` (canonical serialization);
* the wall clock `time()` is passed in as an explicit `timestamp` argument;
* the network call `requests.get(f'http://{node}/chain')` made once per
  registered node is supplied as a list of `FetchResult`, one per node in
  visit order.

Every function of the repository itself (`new_block`, `add_transaction`,
`hash`, `proof_of_work`, `valid_proof`, `valid_chain`, `resolve_conflicts`,
`register_node` and the `/mine` handler) is translated directly from the
source.  A Python statement that can raise an uncaught exception is
modelled with `Option` (`none` = the exception propagates to the caller).
-/

/-- A transaction record `{sender, recipient, amount}` as appended by
`Blockchain.add_transaction`. -/
structure Transaction where
  sender : String
  recipient : String
  amount : Int
deriving DecidableEq

/-- The Python value stored in a block's `previous_hash` field: the genesis
block stores the integer `1`, every other block stores a hex-digest string
(callers could also pass any int or string explicitly). -/
inductive PrevHash where
  | int (n : Int)
  | str (s : String)
deriving DecidableEq

/-- Python truthiness of a `previous_hash` value: the integer `0` and the
empty string are falsy, everything else is truthy.  This drives the
`previous_hash or self.hash(self.chain[-1])` fallback in `new_block`. -/
def PrevHash.truthy : PrevHash → Bool
  | .int n => n != 0
  | .str s => s != ""

/-- A block dict as built by `Blockchain.new_block`.  The timestamp's value
is opaque to all program logic (it only feeds the abstract serializer), so
it is carried as a `Nat`. -/
structure Block where
  index : Nat
  timestamp : Nat
  transactions : List Transaction
  proof : Nat
  previous_hash : PrevHash
deriving DecidableEq

/-- The mutable state of a `Blockchain` object: the chain, the pending
transaction pool and the registered peer set (`self.nodes`; a Python `set`,
modelled as a duplicate-free insertion list). -/
structure Blockchain where
  chain : List Block
  current_transactions : List Transaction
  nodes : List String
deriving DecidableEq

namespace Blockchain

/-- Source `Blockchain.hash`: SHA-256 hex digest of the canonical (sort_keys)
JSON serialization of a block. -/
def hash (sha256hex : String → String) (jsonDumps : Block → String)
    (block : Block) : String :=
  sha256hex (jsonDumps block)

/-- Python string slicing `s[:n]`: the first `n` characters. -/
def pySlice (s : String) (n : Nat) : String :=
  ⟨s.data.take n⟩

/-- Source `Blockchain.valid_proof`: hash the concatenation of the decimal string
forms of `last_proof` and `proof` (the f-string `f'{last_proof}{proof}'`)
and test whether the first four hex characters are `"0000"`. -/
def valid_proof (sha256hex : String → String) (last_proof proof : Nat) : Bool :=
  pySlice (sha256hex (Nat.repr last_proof ++ Nat.repr proof)) 4 == "0000"

/-- Source `Blockchain.proof_of_work`: linear search from `0` for the first proof
accepted by `valid_proof` (`while self.valid_proof(last_proof, proof) is
False: proof += 1`).  The loop terminates exactly when some valid proof
exists, so that hypothesis is taken as an argument and the loop is the
least-element search `Nat.find`. -/
def proof_of_work (sha256hex : String → String) (last_proof : Nat)
    (h : ∃ p, valid_proof sha256hex last_proof p = true) : Nat :=
  Nat.find h

/-- Source `Blockchain.new_block`: build the block dict, reset the pending pool,
append the block and return it.  `previous_hash or self.hash(self.chain[-1])`
uses the supplied value only when it is truthy; otherwise it hashes the tip,
which raises `IndexError` (`none`) on an empty chain. -/
def new_block (sha256hex : String → String) (jsonDumps : Block → String)
    (timestamp : Nat) (proof : Nat) (previous_hash : Option PrevHash)
    (bc : Blockchain) : Option (Blockchain × Block) :=
  match (match previous_hash with
         | some v => if v.truthy then some v else none
         | none => none) with
  | some v =>
    let block : Block :=
      { index := bc.chain.length + 1, timestamp := timestamp,
        transactions := bc.current_transactions, proof := proof,
        previous_hash := v }
    some ({ bc with current_transactions := [],
                    chain := bc.chain ++ [block] }, block)
  | none =>
    match bc.chain.getLast? with
    | some tip =>
      let block : Block :=
        { index := bc.chain.length + 1, timestamp := timestamp,
          transactions := bc.current_transactions, proof := proof,
          previous_hash := .str (hash sha256hex jsonDumps tip) }
      some ({ bc with current_transactions := [],
                      chain := bc.chain ++ [block] }, block)
    | none => none

/-- Source `Blockchain.add_transaction`: append the transaction to the pending
pool, then return `self.last_block['index'] + 1`.  The append happens
before `last_block` is read, so on an empty chain the state change
persists while the index lookup raises (`none`). -/
def add_transaction (sender recipient : String) (amount : Int)
    (bc : Blockchain) : Blockchain × Option Nat :=
  let bc' := { bc with current_transactions :=
                 bc.current_transactions ++ [⟨sender, recipient, amount⟩] }
  (bc', bc'.chain.getLast?.map fun tip => tip.index + 1)

/-- Source `Blockchain.register_node`: add `urlparse(address).netloc` to the peer
set.  `netloc` stands for the library parser `urlparse(·).netloc`. -/
def register_node (netloc : String → String) (address : String)
    (bc : Blockchain) : Blockchain :=
  if netloc address ∈ bc.nodes then bc
  else { bc with nodes := bc.nodes ++ [netloc address] }

/-- Source `Blockchain.last_block`: `self.chain[-1]` (raises on an empty chain). -/
def last_block (bc : Blockchain) : Option Block :=
  bc.chain.getLast?

/-- The loop body of `Blockchain.valid_chain`, walking the chain from the
second element: each block must link (by `previous_hash`) to the hash of
the previous block and its proof must extend the previous proof. -/
def validChainGo (sha256hex : String → String) (jsonDumps : Block → String)
    (lastBlock : Block) : List Block → Bool
  | [] => true
  | block :: rest =>
    if block.previous_hash != .str (hash sha256hex jsonDumps lastBlock) then
      false
    else if !(valid_proof sha256hex lastBlock.proof block.proof) then
      false
    else
      validChainGo sha256hex jsonDumps block rest

/-- Source `Blockchain.valid_chain`: `last_block = chain[0]` raises `IndexError`
on an empty chain (`none`); otherwise walk the adjacent pairs. -/
def valid_chain (sha256hex : String → String) (jsonDumps : Block → String)
    (chain : List Block) : Option Bool :=
  match chain with
  | [] => none
  | b :: rest => some (validChainGo sha256hex jsonDumps b rest)

/-- The outcome of the `requests.get(f'http://{node}/chain')` call for one
registered node during `resolve_conflicts`:
* `raises`: the request raised (unreachable host, connection error) — the
  code has no `try`/`except`, so this propagates;
* `resp status json`: a response arrived with the given status code;
  `json` is `some (length, chain)` when `response.json()` parses and has
  both fields, `none` when `.json()` or the key lookups would raise. -/
inductive FetchResult where
  | raises
  | resp (status : Nat) (json : Option (Nat × List Block))
deriving DecidableEq

/-- The peer loop of `Blockchain.resolve_conflicts`, carrying the running
`max_length` and `new_chain` variables.  A candidate is consulted only on a
200-status response; it overrides the running best only when its *reported*
`length` field is strictly greater than `max_length` and `valid_chain`
accepts its chain (short-circuit `and`: `valid_chain` is not called
otherwise).  Returns `none` when an uncaught exception escapes the loop. -/
def resolveGo (sha256hex : String → String) (jsonDumps : Block → String)
    (maxLen : Nat) (newChain : Option (List Block)) :
    List FetchResult → Option (Nat × Option (List Block))
  | [] => some (maxLen, newChain)
  | FetchResult.raises :: _ => none
  | FetchResult.resp status json :: rest =>
    if status = 200 then
      match json with
      | none => none
      | some (len, chain) =>
        if maxLen < len then
          match valid_chain sha256hex jsonDumps chain with
          | none => none
          | some true => resolveGo sha256hex jsonDumps len (some chain) rest
          | some false => resolveGo sha256hex jsonDumps maxLen newChain rest
        else resolveGo sha256hex jsonDumps maxLen newChain rest
    else resolveGo sha256hex jsonDumps maxLen newChain rest

/-- Source `Blockchain.resolve_conflicts`: visit every node's fetch result with
`max_length` starting at the local chain's length and `new_chain` unset;
afterwards `if new_chain:` (Python list truthiness) decides whether the
local chain is replaced (`true`) or kept (`false`). -/
def resolve_conflicts (sha256hex : String → String)
    (jsonDumps : Block → String) (bc : Blockchain)
    (fetches : List FetchResult) : Option (Blockchain × Bool) :=
  match resolveGo sha256hex jsonDumps bc.chain.length none fetches with
  | none => none
  | some (_, none) => some (bc, false)
  | some (_, some c) =>
    if c.isEmpty then some (bc, false)
    else some ({ bc with chain := c }, true)

/-- The genesis block created by the constructor's
`self.new_block(previous_hash=1, proof=100)` call. -/
def genesis_block (timestamp : Nat) : Block :=
  { index := 1, timestamp := timestamp, transactions := [], proof := 100,
    previous_hash := .int 1 }

/-- The state produced by `Blockchain.__init__` (empty chain, empty pool,
empty node set, then the genesis `new_block` call). -/
def init (timestamp : Nat) : Blockchain :=
  { chain := [genesis_block timestamp], current_transactions := [],
    nodes := [] }

/-- The `/mine` handler: read the tip's proof, run `proof_of_work`, award
the reward transaction (`sender="0"`, `amount=1`) to this node, then
`new_block(proof)` with no explicit `previous_hash`. -/
def mine (sha256hex : String → String) (jsonDumps : Block → String)
    (node_identifier : String) (timestamp : Nat) (bc : Blockchain)
    (tip : Block) (h : ∃ p, valid_proof sha256hex tip.proof p = true) :
    Option (Blockchain × Block) :=
  new_block sha256hex jsonDumps timestamp
    (proof_of_work sha256hex tip.proof h) none
    (add_transaction "0" node_identifier 1 bc).1

/-- The constructor's genesis call really is `new_block` on the empty
state: `previous_hash=1` is truthy, so `chain[-1]` is never touched. -/
theorem init_eq_new_block (sha256hex : String → String)
    (jsonDumps : Block → String) (timestamp : Nat) :
    new_block sha256hex jsonDumps timestamp 100 (some (.int 1))
        { chain := [], current_transactions := [], nodes := [] }
      = some (init timestamp, genesis_block timestamp) := rfl

end Blockchain

namespace Blockchain

/-- The condition `valid_chain` checks for one adjacent pair `(prev, cur)`:
`cur`'s `previous_hash` equals the canonical hash of `prev`, and the
proof-of-work relation holds between the two proofs. -/
def linkOk (sha256hex : String → String) (jsonDumps : Block → String)
    (prev cur : Block) : Prop :=
  cur.previous_hash = .str (hash sha256hex jsonDumps prev) ∧
  valid_proof sha256hex prev.proof cur.proof = true

lemma validChainGo_iff_chain' (sha256hex : String → String)
    (jsonDumps : Block → String) :
    ∀ (rest : List Block) (b : Block),
      validChainGo sha256hex jsonDumps b rest = true ↔
        List.Chain' (linkOk sha256hex jsonDumps) (b :: rest)
  | [], b => by simp [validChainGo]
  | c :: rest, b => by
    rw [List.chain'_cons, ← validChainGo_iff_chain' sha256hex jsonDumps rest c]
    simp only [validChainGo, linkOk]
    by_cases h1 : c.previous_hash = PrevHash.str (hash sha256hex jsonDumps b) <;>
      by_cases h2 : valid_proof sha256hex b.proof c.proof = true <;>
        simp [h1, h2]

/-- Constant stand-ins for the abstract library digest/serializer, used to
instantiate theorems at concrete inputs. -/
def constHash : String → String := fun _ => "0000"

def constDump : Block → String := fun _ => ""

lemma constHash_valid : ∃ p, valid_proof constHash 0 p = true := ⟨0, rfl⟩

/-- Python slicing: the first four characters of `s` are `"0000"` exactly
when `s` is `"0000"` followed by some suffix. -/
lemma pySlice_four (s : String) :
    pySlice s 4 = "0000" ↔ ∃ t : String, s = "0000" ++ t := by
  constructor
  · intro h
    have hd : s.data.take 4 = "0000".data := congrArg String.data h
    refine ⟨⟨s.data.drop 4⟩, String.ext ?_⟩
    rw [String.data_append, ← hd]
    exact (List.take_append_drop 4 s.data).symm
  · rintro ⟨t, rfl⟩
    apply String.ext
    show ("0000" ++ t).data.take 4 = "0000".data
    rw [String.data_append,
      show ("0000" : String).data = ['0', '0', '0', '0'] from rfl]
    rfl

/-- C2: for a non-empty chain, `valid_chain` returns `some` of a Boolean
that is `true` iff every adjacent pair `(prev, cur)` (starting from the
second block) satisfies `cur.previous_hash = hash prev` and
`valid_proof prev.proof cur.proof`; a length-1 chain always validates.
The walk is pure (the chain is an immutable value here) and, being the
pointwise conjunction, it is `false` exactly when some pair violates —
operationally the source returns at the first such pair. -/
theorem valid_chain_adjacent_pairs (sha256hex : String → String)
    (jsonDumps : Block → String) (b0 : Block) (rest : List Block) :
    (valid_chain sha256hex jsonDumps (b0 :: rest) = some true ↔
      ∀ (i : Nat) (h : i < (b0 :: rest).length - 1),
        linkOk sha256hex jsonDumps ((b0 :: rest).get ⟨i, by omega⟩)
          ((b0 :: rest).get ⟨i + 1, by omega⟩)) ∧
    valid_chain sha256hex jsonDumps [b0] = some true := by
  refine ⟨?_, rfl⟩
  have h1 : valid_chain sha256hex jsonDumps (b0 :: rest) = some true ↔
      validChainGo sha256hex jsonDumps b0 rest = true := by
    simp [valid_chain]
  rw [h1, validChainGo_iff_chain' sha256hex jsonDumps rest b0,
    List.chain'_iff_get]

/-- C5: `valid_proof` accepts exactly when the hex digest of the UTF-8
encoding of the decimal form of `last_proof` concatenated with the decimal
form of `proof` starts with four `'0'` characters. -/
theorem valid_proof_characterization (sha256hex : String → String)
    (last_proof proof : Nat) :
    valid_proof sha256hex last_proof proof = true ↔
      ∃ t : String,
        sha256hex (Nat.repr last_proof ++ Nat.repr proof) = "0000" ++ t := by
  simp only [valid_proof, beq_iff_eq]
  exact pySlice_four _

/-- C4: whenever a valid proof exists at all, `proof_of_work` returns a
proof that `valid_proof` accepts and every smaller candidate is rejected —
the least solution of the linear search from `0`. -/
theorem proof_of_work_least (sha256hex : String → String) (last_proof : Nat)
    (h : ∃ p, valid_proof sha256hex last_proof p = true) :
    valid_proof sha256hex last_proof
        (proof_of_work sha256hex last_proof h) = true ∧
    ∀ m, m < proof_of_work sha256hex last_proof h →
      valid_proof sha256hex last_proof m = false := by
  refine ⟨Nat.find_spec h, fun m hm => ?_⟩
  simpa using Nat.find_min h hm

/-- C4 witness: with the constant digest every proof is valid, so the
search stops at a least solution for `last_proof = 0`. -/
theorem proof_of_work_least_witness :
    valid_proof constHash 0 (proof_of_work constHash 0 constHash_valid) = true ∧
    ∀ m, m < proof_of_work constHash 0 constHash_valid →
      valid_proof constHash 0 m = false :=
  proof_of_work_least constHash 0 constHash_valid

/-- C10: `valid_proof` depends only on the concatenated decimal string, so
two input pairs with the same concatenation are indistinguishable. -/
theorem valid_proof_concat_collision (sha256hex : String → String)
    (a b c d : Nat) (h : Nat.repr a ++ Nat.repr b = Nat.repr c ++ Nat.repr d) :
    valid_proof sha256hex a b = valid_proof sha256hex c d := by
  unfold valid_proof
  rw [h]

/-- C10 witness: the pairs `(1, 23)` and `(12, 3)` both encode to `"123"`. -/
theorem valid_proof_concat_collision_witness :
    Nat.repr 1 ++ Nat.repr 23 = Nat.repr 12 ++ Nat.repr 3 ∧
      valid_proof constHash 1 23 = valid_proof constHash 12 3 :=
  ⟨rfl, valid_proof_concat_collision constHash 1 23 12 3 rfl⟩

lemma resolveGo_nil (sha256hex : String → String) (jsonDumps : Block → String)
    (maxLen : Nat) (nc : Option (List Block)) :
    resolveGo sha256hex jsonDumps maxLen nc [] = some (maxLen, nc) := rfl

lemma resolveGo_cons_raises (sha256hex : String → String)
    (jsonDumps : Block → String) (maxLen : Nat) (nc : Option (List Block))
    (rest : List FetchResult) :
    resolveGo sha256hex jsonDumps maxLen nc (FetchResult.raises :: rest)
      = none := rfl

lemma resolveGo_cons_200_malformed (sha256hex : String → String)
    (jsonDumps : Block → String) (maxLen : Nat) (nc : Option (List Block))
    (rest : List FetchResult) :
    resolveGo sha256hex jsonDumps maxLen nc
        (FetchResult.resp 200 none :: rest) = none := rfl

lemma resolveGo_cons_200 (sha256hex : String → String)
    (jsonDumps : Block → String) (maxLen : Nat) (nc : Option (List Block))
    (len : Nat) (chain : List Block) (rest : List FetchResult) :
    resolveGo sha256hex jsonDumps maxLen nc
        (FetchResult.resp 200 (some (len, chain)) :: rest) =
      if maxLen < len then
        match valid_chain sha256hex jsonDumps chain with
        | none => none
        | some true => resolveGo sha256hex jsonDumps len (some chain) rest
        | some false => resolveGo sha256hex jsonDumps maxLen nc rest
      else resolveGo sha256hex jsonDumps maxLen nc rest := rfl

lemma resolveGo_cons_not200 (sha256hex : String → String)
    (jsonDumps : Block → String) (maxLen : Nat) (nc : Option (List Block))
    (status : Nat) (json : Option (Nat × List Block))
    (rest : List FetchResult) (hs : status ≠ 200) :
    resolveGo sha256hex jsonDumps maxLen nc
        (FetchResult.resp status json :: rest) =
      resolveGo sha256hex jsonDumps maxLen nc rest := by
  simp only [resolveGo]
  rw [if_neg hs]

/-- Where the loop's final `(max_length, new_chain)` can come from: either
both are untouched, or `new_chain` is a fetched 200-status candidate whose
reported length is the final `max_length`, strictly above the starting
value, and whose chain passed validation. -/
lemma resolveGo_provenance (sha256hex : String → String)
    (jsonDumps : Block → String) (fetches : List FetchResult) :
    ∀ (maxLen : Nat) (nc : Option (List Block)) (m' : Nat)
      (nc' : Option (List Block)),
      resolveGo sha256hex jsonDumps maxLen nc fetches = some (m', nc') →
      (m' = maxLen ∧ nc' = nc) ∨
      (∃ c, nc' = some c ∧
        FetchResult.resp 200 (some (m', c)) ∈ fetches ∧
        valid_chain sha256hex jsonDumps c = some true ∧ maxLen < m') := by
  induction fetches with
  | nil =>
    intro maxLen nc m' nc' h
    rw [resolveGo_nil] at h
    obtain ⟨h1, h2⟩ := Prod.mk.injEq .. ▸ Option.some.inj h
    exact Or.inl ⟨h1.symm, h2.symm⟩
  | cons f rest ih =>
    intro maxLen nc m' nc' h
    rcases f with _ | ⟨status, json⟩
    · rw [resolveGo_cons_raises] at h
      exact Option.noConfusion h
    · by_cases hs : status = 200
      · subst hs
        rcases json with _ | ⟨len, chain⟩
        · rw [resolveGo_cons_200_malformed] at h
          exact Option.noConfusion h
        · rw [resolveGo_cons_200] at h
          by_cases hlt : maxLen < len
          · rw [if_pos hlt] at h
            rcases hvc : valid_chain sha256hex jsonDumps chain with _ | b
            · rw [hvc] at h
              exact Option.noConfusion h
            · rcases b with _ | _
              · rw [hvc] at h
                rcases ih maxLen nc m' nc' h with h1 | ⟨c, hc1, hc2, hc3, hc4⟩
                · exact Or.inl h1
                · exact Or.inr ⟨c, hc1, List.mem_cons_of_mem _ hc2, hc3, hc4⟩
              · rw [hvc] at h
                rcases ih len (some chain) m' nc' h with ⟨hm, hnc⟩ |
                    ⟨c, hc1, hc2, hc3, hc4⟩
                · subst hm
                  exact Or.inr ⟨chain, hnc, List.mem_cons_self _ _, hvc, hlt⟩
                · exact Or.inr ⟨c, hc1, List.mem_cons_of_mem _ hc2, hc3,
                    lt_trans hlt hc4⟩
          · rw [if_neg hlt] at h
            rcases ih maxLen nc m' nc' h with h1 | ⟨c, hc1, hc2, hc3, hc4⟩
            · exact Or.inl h1
            · exact Or.inr ⟨c, hc1, List.mem_cons_of_mem _ hc2, hc3, hc4⟩
      · rw [resolveGo_cons_not200 _ _ _ _ _ _ _ hs] at h
        rcases ih maxLen nc m' nc' h with h1 | ⟨c, hc1, hc2, hc3, hc4⟩
        · exact Or.inl h1
        · exact Or.inr ⟨c, hc1, List.mem_cons_of_mem _ hc2, hc3, hc4⟩

/-- The running `max_length` never decreases across the peer loop. -/
lemma resolveGo_mono (sha256hex : String → String)
    (jsonDumps : Block → String) (fetches : List FetchResult) (maxLen : Nat)
    (nc : Option (List Block)) (m' : Nat) (nc' : Option (List Block))
    (h : resolveGo sha256hex jsonDumps maxLen nc fetches = some (m', nc')) :
    maxLen ≤ m' := by
  rcases resolveGo_provenance sha256hex jsonDumps fetches maxLen nc m' nc' h
    with ⟨h1, _⟩ | ⟨_, _, _, _, h4⟩
  · omega
  · omega

/-- Every validated 200-status candidate's reported length is bounded by
the final `max_length`. -/
lemma resolveGo_max (sha256hex : String → String)
    (jsonDumps : Block → String) (fetches : List FetchResult) :
    ∀ (maxLen : Nat) (nc : Option (List Block)) (m' : Nat)
      (nc' : Option (List Block)),
      resolveGo sha256hex jsonDumps maxLen nc fetches = some (m', nc') →
      ∀ len chain, FetchResult.resp 200 (some (len, chain)) ∈ fetches →
        valid_chain sha256hex jsonDumps chain = some true → len ≤ m' := by
  induction fetches with
  | nil =>
    intro maxLen nc m' nc' _ len chain hmem _
    exact absurd hmem (List.not_mem_nil _)
  | cons f rest ih =>
    intro maxLen nc m' nc' h len chain hmem hvalid
    rcases List.mem_cons.mp hmem with heq | hmem'
    · subst heq
      rw [resolveGo_cons_200] at h
      by_cases hlt : maxLen < len
      · rw [if_pos hlt, hvalid] at h
        exact resolveGo_mono sha256hex jsonDumps rest len (some chain) m' nc' h
      · rw [if_neg hlt] at h
        have := resolveGo_mono sha256hex jsonDumps rest maxLen nc m' nc' h
        omega
    · rcases f with _ | ⟨status, json⟩
      · rw [resolveGo_cons_raises] at h
        exact Option.noConfusion h
      · by_cases hs : status = 200
        · subst hs
          rcases json with _ | ⟨len2, chain2⟩
          · rw [resolveGo_cons_200_malformed] at h
            exact Option.noConfusion h
          · rw [resolveGo_cons_200] at h
            by_cases hlt : maxLen < len2
            · rw [if_pos hlt] at h
              rcases hvc : valid_chain sha256hex jsonDumps chain2 with _ | b
              · rw [hvc] at h
                exact Option.noConfusion h
              · rcases b with _ | _
                · rw [hvc] at h
                  exact ih _ _ _ _ h len chain hmem' hvalid
                · rw [hvc] at h
                  exact ih _ _ _ _ h len chain hmem' hvalid
            · rw [if_neg hlt] at h
              exact ih _ _ _ _ h len chain hmem' hvalid
        · rw [resolveGo_cons_not200 _ _ _ _ _ _ _ hs] at h
          exact ih _ _ _ _ h len chain hmem' hvalid

/-- Completeness of the loop: once `new_chain` is set it is never unset,
so a final state with `new_chain` unset means no visited 200-status
candidate was validated with a reported length above the starting
`max_length`. -/
lemma resolveGo_none_no_candidate (sha256hex : String → String)
    (jsonDumps : Block → String) (fetches : List FetchResult) :
    ∀ (maxLen : Nat) (nc : Option (List Block)) (m' : Nat),
      resolveGo sha256hex jsonDumps maxLen nc fetches = some (m', none) →
      ∀ len chain, FetchResult.resp 200 (some (len, chain)) ∈ fetches →
        valid_chain sha256hex jsonDumps chain = some true → len ≤ maxLen := by
  induction fetches with
  | nil =>
    intro maxLen nc m' _ len chain hmem _
    exact absurd hmem (List.not_mem_nil _)
  | cons f rest ih =>
    intro maxLen nc m' h len chain hmem hvalid
    rcases List.mem_cons.mp hmem with heq | hmem'
    · subst heq
      rw [resolveGo_cons_200] at h
      by_cases hlt : maxLen < len
      · rw [if_pos hlt, hvalid] at h
        rcases resolveGo_provenance sha256hex jsonDumps rest len (some chain)
          m' none h with ⟨_, hnc⟩ | ⟨c, hc1, _, _, _⟩
        · exact Option.noConfusion hnc
        · exact Option.noConfusion hc1
      · omega
    · rcases f with _ | ⟨status, json⟩
      · rw [resolveGo_cons_raises] at h
        exact Option.noConfusion h
      · by_cases hs : status = 200
        · subst hs
          rcases json with _ | ⟨len2, chain2⟩
          · rw [resolveGo_cons_200_malformed] at h
            exact Option.noConfusion h
          · rw [resolveGo_cons_200] at h
            by_cases hlt : maxLen < len2
            · rw [if_pos hlt] at h
              rcases hvc : valid_chain sha256hex jsonDumps chain2 with _ | b
              · rw [hvc] at h
                exact Option.noConfusion h
              · rcases b with _ | _
                · rw [hvc] at h
                  exact ih _ _ _ h len chain hmem' hvalid
                · rw [hvc] at h
                  rcases resolveGo_provenance sha256hex jsonDumps rest len2
                    (some chain2) m' none h with ⟨_, hnc⟩ | ⟨c, hc1, _, _, _⟩
                  · exact Option.noConfusion hnc
                  · exact Option.noConfusion hc1
            · rw [if_neg hlt] at h
              exact ih _ _ _ h len chain hmem' hvalid
        · rw [resolveGo_cons_not200 _ _ _ _ _ _ _ hs] at h
          exact ih _ _ _ h len chain hmem' hvalid

/-- C1: whenever `resolve_conflicts` completes, (1) a `false` report
leaves the whole local state unchanged; (2) a `true` report means some
200-status peer response carried a validated chain whose reported length
strictly exceeds the local chain's length, that chain (the longest such:
every other validated candidate's reported length is bounded by it, ties
broken first-seen by the strictly-greater rule) replaces the local chain
and nothing else changes; (3) if no peer reports a length strictly above
the local length — in particular when every peer chain is exactly as long
as the local one — the report is `false` and the chain is kept; and (4)
adoption is forced: whenever any visited 200-status response carries a
validated chain with reported length strictly above the local length, the
operation must report a replacement. -/
theorem resolve_conflicts_correct (sha256hex : String → String)
    (jsonDumps : Block → String) (bc : Blockchain)
    (fetches : List FetchResult) (bc' : Blockchain) (replaced : Bool)
    (h : resolve_conflicts sha256hex jsonDumps bc fetches
          = some (bc', replaced)) :
    (replaced = false → bc' = bc) ∧
    (replaced = true → ∃ len chain,
      FetchResult.resp 200 (some (len, chain)) ∈ fetches ∧
      bc.chain.length < len ∧
      valid_chain sha256hex jsonDumps chain = some true ∧
      bc' = { bc with chain := chain } ∧
      ∀ len2 chain2, FetchResult.resp 200 (some (len2, chain2)) ∈ fetches →
        valid_chain sha256hex jsonDumps chain2 = some true → len2 ≤ len) ∧
    ((∀ len chain, FetchResult.resp 200 (some (len, chain)) ∈ fetches →
        len ≤ bc.chain.length) → replaced = false ∧ bc' = bc) ∧
    (∀ len chain, FetchResult.resp 200 (some (len, chain)) ∈ fetches →
      bc.chain.length < len →
      valid_chain sha256hex jsonDumps chain = some true →
      replaced = true) := by
  have hrc : resolve_conflicts sha256hex jsonDumps bc fetches
      = match resolveGo sha256hex jsonDumps bc.chain.length none fetches with
        | none => none
        | some (_, none) => some (bc, false)
        | some (_, some c) =>
          if c.isEmpty then some (bc, false)
          else some ({ bc with chain := c }, true) := rfl
  rcases hgo : resolveGo sha256hex jsonDumps bc.chain.length none fetches
    with _ | ⟨m', nc'⟩
  · rw [hrc, hgo] at h
    exact Option.noConfusion h
  · rcases nc' with _ | c
    · have h2 : (some (bc, false) : Option (Blockchain × Bool))
          = some (bc', replaced) := by
        rw [← h, hrc, hgo]
      obtain ⟨hbc, hrep⟩ := Prod.mk.injEq .. ▸ Option.some.inj h2
      subst hbc
      subst hrep
      exact ⟨fun _ => rfl, fun hx => absurd hx (by decide),
        fun _ => ⟨rfl, rfl⟩,
        fun len chain hmem hlt hvalid =>
          absurd (resolveGo_none_no_candidate sha256hex jsonDumps fetches
            bc.chain.length none m' hgo len chain hmem hvalid) (by omega)⟩
    · by_cases hemp : c.isEmpty
      · rcases resolveGo_provenance sha256hex jsonDumps fetches
          bc.chain.length none m' (some c) hgo with ⟨_, hnc⟩ |
            ⟨c2, hc1, _, hc3, _⟩
        · exact Option.noConfusion hnc
        · obtain rfl : c = c2 := Option.some.inj hc1
          obtain rfl : c = [] := by simpa using hemp
          exact Option.noConfusion hc3
      · have h2 : (some ({ bc with chain := c }, true)
              : Option (Blockchain × Bool)) = some (bc', replaced) := by
          rw [← h, hrc, hgo]
          exact (if_neg hemp).symm
        obtain ⟨hbc, hrep⟩ := Prod.mk.injEq .. ▸ Option.some.inj h2
        subst hbc
        subst hrep
        refine ⟨fun hx => absurd hx (by decide), fun _ => ?_, fun hall => ?_,
          fun _ _ _ _ _ => rfl⟩
        · rcases resolveGo_provenance sha256hex jsonDumps fetches
            bc.chain.length none m' (some c) hgo with ⟨_, hnc⟩ |
              ⟨c2, hc1, hc2, hc3, hc4⟩
          · exact Option.noConfusion hnc
          · obtain rfl : c = c2 := Option.some.inj hc1
            exact ⟨m', c, hc2, hc4, hc3, rfl,
              fun len2 chain2 hm hv => resolveGo_max sha256hex jsonDumps
                fetches bc.chain.length none m' (some c) hgo len2 chain2 hm hv⟩
        · rcases resolveGo_provenance sha256hex jsonDumps fetches
            bc.chain.length none m' (some c) hgo with ⟨_, hnc⟩ |
              ⟨c2, _, hc2, _, hc4⟩
          · exact Option.noConfusion hnc
          · exact absurd (hall m' c2 hc2) (by omega)

/-- Concrete states used to instantiate the consensus theorems: a local
chain of two blocks, and a peer response reporting length `3` while
actually carrying a single (trivially valid) block. -/
def demoLocal : Blockchain :=
  { chain := [genesis_block 0, genesis_block 1], current_transactions := [],
    nodes := [] }

def demoFetches : List FetchResult :=
  [FetchResult.resp 200 (some (3, [genesis_block 5]))]

def demoAdopted : Blockchain :=
  { chain := [genesis_block 5], current_transactions := [], nodes := [] }

/-- C1 witness: on the two-block local chain, the single valid peer
response reporting length 3 is adopted and reported as a replacement. -/
theorem resolve_conflicts_correct_witness :
    (true = false → demoAdopted = demoLocal) ∧
    (true = true → ∃ len chain,
      FetchResult.resp 200 (some (len, chain)) ∈ demoFetches ∧
      demoLocal.chain.length < len ∧
      valid_chain constHash constDump chain = some true ∧
      demoAdopted = { demoLocal with chain := chain } ∧
      ∀ len2 chain2,
        FetchResult.resp 200 (some (len2, chain2)) ∈ demoFetches →
        valid_chain constHash constDump chain2 = some true → len2 ≤ len) ∧
    ((∀ len chain, FetchResult.resp 200 (some (len, chain)) ∈ demoFetches →
        len ≤ demoLocal.chain.length) →
          true = false ∧ demoAdopted = demoLocal) ∧
    (∀ len chain, FetchResult.resp 200 (some (len, chain)) ∈ demoFetches →
      demoLocal.chain.length < len →
      valid_chain constHash constDump chain = some true → true = true) :=
  resolve_conflicts_correct constHash constDump demoLocal demoFetches
    demoAdopted true rfl

/-- C3 counterexample: `resolve_conflicts` has no `try`/`except`, so the
very first unreachable peer (whose `requests.get` raises) aborts the whole
resolution with an uncaught exception (`none`) instead of being skipped. -/
theorem resolve_conflicts_unreachable_crashes :
    resolve_conflicts constHash constDump demoLocal [FetchResult.raises]
      = none := rfl

/-- C3 amended: only a peer answering with a non-200 status code is
skipped silently — dropping it from the visit list leaves the outcome of
the resolution, and hence the local chain, completely unchanged.  (An
unreachable peer, or a 200 response whose body fails to parse, instead
raises.) -/
theorem resolve_conflicts_skips_non200 (sha256hex : String → String)
    (jsonDumps : Block → String) (bc : Blockchain) (status : Nat)
    (json : Option (Nat × List Block)) (rest : List FetchResult)
    (hs : status ≠ 200) :
    resolve_conflicts sha256hex jsonDumps bc
        (FetchResult.resp status json :: rest)
      = resolve_conflicts sha256hex jsonDumps bc rest := by
  unfold resolve_conflicts
  rw [resolveGo_cons_not200 _ _ _ _ _ _ _ hs]

/-- C3 witness: a 404 response is skipped — with no further peer the
resolution then keeps the local chain. -/
theorem resolve_conflicts_skips_non200_witness :
    resolve_conflicts constHash constDump demoLocal
        [FetchResult.resp 404 none]
      = resolve_conflicts constHash constDump demoLocal [] :=
  resolve_conflicts_skips_non200 constHash constDump demoLocal 404 none []
    (by decide)

/-- C9: the adoption decision reads the peer-reported `length` field, not
the fetched chain's block count.  A peer reporting length 3 while carrying
a valid single-block chain overrides a two-block local chain: the local
chain is replaced by the strictly shorter chain and the operation reports
a replacement. -/
theorem resolve_conflicts_trusts_reported_length
    (sha256hex : String → String) (jsonDumps : Block → String) :
    resolve_conflicts sha256hex jsonDumps demoLocal demoFetches
        = some (demoAdopted, true) ∧
    demoLocal.chain.length < 3 ∧
    valid_chain sha256hex jsonDumps [genesis_block 5] = some true ∧
    demoAdopted.chain.length < demoLocal.chain.length :=
  ⟨rfl, by decide, rfl, by decide⟩

/-- The value `new_block` actually stores in `previous_hash`: the supplied
value when it is truthy (Python `or` semantics), otherwise the hash of the
tip block. -/
def effectivePrev (sha256hex : String → String) (jsonDumps : Block → String)
    (ph? : Option PrevHash) (tip : Block) : PrevHash :=
  match ph? with
  | some v => if v.truthy then v else .str (hash sha256hex jsonDumps tip)
  | none => .str (hash sha256hex jsonDumps tip)

/-- Closed form of `new_block` on a state with a tip block. -/
lemma new_block_eq (sha256hex : String → String) (jsonDumps : Block → String)
    (timestamp proof : Nat) (ph? : Option PrevHash) (bc : Blockchain)
    (tip : Block) (htip : bc.chain.getLast? = some tip) :
    new_block sha256hex jsonDumps timestamp proof ph? bc =
      some ({ bc with current_transactions := [],
                      chain := bc.chain ++
                        [⟨bc.chain.length + 1, timestamp,
                          bc.current_transactions, proof,
                          effectivePrev sha256hex jsonDumps ph? tip⟩] },
            ⟨bc.chain.length + 1, timestamp, bc.current_transactions, proof,
              effectivePrev sha256hex jsonDumps ph? tip⟩) := by
  rcases ph? with _ | v
  · simp [new_block, effectivePrev, htip]
  · by_cases hv : v.truthy <;> simp [new_block, effectivePrev, hv, htip]

/-- Closed form of `new_block` with a truthy explicit `previous_hash`
(works even on an empty chain; the fallback hash is never computed). -/
lemma new_block_truthy_eq (sha256hex : String → String)
    (jsonDumps : Block → String) (timestamp proof : Nat) (v : PrevHash)
    (bc : Blockchain) (hv : v.truthy = true) :
    new_block sha256hex jsonDumps timestamp proof (some v) bc =
      some ({ bc with current_transactions := [],
                      chain := bc.chain ++
                        [⟨bc.chain.length + 1, timestamp,
                          bc.current_transactions, proof, v⟩] },
            ⟨bc.chain.length + 1, timestamp, bc.current_transactions, proof,
              v⟩) := by
  simp only [new_block]
  rw [if_pos hv]

/-- On an empty chain, `new_block` without a truthy explicit
`previous_hash` raises `IndexError` at `self.chain[-1]`. -/
lemma new_block_empty_none (sha256hex : String → String)
    (jsonDumps : Block → String) (timestamp proof : Nat) (bc : Blockchain)
    (hlast : bc.chain.getLast? = none) :
    new_block sha256hex jsonDumps timestamp proof none bc = none := by
  simp only [new_block]
  rw [hlast]

lemma new_block_empty_falsy (sha256hex : String → String)
    (jsonDumps : Block → String) (timestamp proof : Nat) (v : PrevHash)
    (bc : Blockchain) (hv : ¬v.truthy = true)
    (hlast : bc.chain.getLast? = none) :
    new_block sha256hex jsonDumps timestamp proof (some v) bc = none := by
  simp only [new_block]
  rw [if_neg hv, hlast]

/-- A one-block state whose tip's `index` (5) differs from the chain
length (1), to separate `len(chain) + 1` from `tip.index + 1`. -/
def oddState : Blockchain :=
  { chain := [{ index := 5, timestamp := 0, transactions := [], proof := 100,
                previous_hash := .int 1 }],
    current_transactions := [], nodes := [] }

/-- C7 counterexample: supplying the (falsy) empty string as
`previous_hash` does *not* store the supplied value — Python's
`previous_hash or self.hash(...)` falls back to the tip hash (`"0000"`
under the constant digest) — and the new index is `len(chain) + 1 = 2`,
not the tip's `index + 1 = 6`. -/
theorem new_block_falsy_counterexample :
    ((new_block constHash constDump 3 7 (some (PrevHash.str "")) oddState).map
        fun r => (r.2.previous_hash, r.2.index))
      = some (PrevHash.str "0000", 2) ∧
    PrevHash.str "0000" ≠ PrevHash.str "" ∧
    (2 : Nat) ≠ 5 + 1 := by
  exact ⟨rfl, by decide, by decide⟩

/-- C7 amended: on a state with a tip block, `new_block` succeeds and
returns a block whose `index` is the chain length plus 1, whose
`transactions` are the pending pool, and whose `previous_hash` is the
supplied value when that value is *truthy*, and the hash of the tip when
the value is absent or falsy (`None`, `0`, `""`); the block is appended
and the pool cleared. -/
theorem new_block_fields (sha256hex : String → String)
    (jsonDumps : Block → String) (timestamp proof : Nat)
    (ph? : Option PrevHash) (bc : Blockchain) (tip : Block)
    (htip : bc.chain.getLast? = some tip) :
    ∃ bc' blk,
      new_block sha256hex jsonDumps timestamp proof ph? bc
        = some (bc', blk) ∧
      blk.index = bc.chain.length + 1 ∧
      blk.timestamp = timestamp ∧
      blk.transactions = bc.current_transactions ∧
      blk.proof = proof ∧
      blk.previous_hash = effectivePrev sha256hex jsonDumps ph? tip ∧
      bc' = { bc with current_transactions := [],
                      chain := bc.chain ++ [blk] } :=
  ⟨_, _, new_block_eq sha256hex jsonDumps timestamp proof ph? bc tip htip,
    rfl, rfl, rfl, rfl, rfl, rfl⟩

/-- C7 witness: on the fresh ledger, an explicit (truthy) string
`previous_hash` is stored as supplied. -/
theorem new_block_fields_witness :
    ∃ bc' blk,
      new_block constHash constDump 1 2 (some (PrevHash.str "ab")) (init 0)
        = some (bc', blk) ∧
      blk.index = (init 0).chain.length + 1 ∧
      blk.timestamp = 1 ∧
      blk.transactions = (init 0).current_transactions ∧
      blk.proof = 2 ∧
      blk.previous_hash
        = effectivePrev constHash constDump (some (PrevHash.str "ab"))
            (genesis_block 0) ∧
      bc' = { init 0 with current_transactions := [],
                          chain := (init 0).chain ++ [blk] } :=
  new_block_fields constHash constDump 1 2 (some (PrevHash.str "ab"))
    (init 0) (genesis_block 0) rfl

/-- C8: creating a block moves the entire pending pool (in submission
order) into the block and clears it, leaving the chain-so-far appended-to
and the peer set untouched; and no other operation clears the pool —
`add_transaction` strictly appends to it (touching neither chain nor
peers), `register_node` touches neither pool nor chain, and
`resolve_conflicts` never changes pool or peers. -/
theorem pool_lifecycle (sha256hex : String → String)
    (jsonDumps : Block → String) (netloc : String → String) :
    (∀ timestamp proof ph? bc bc' blk,
      new_block sha256hex jsonDumps timestamp proof ph? bc
          = some (bc', blk) →
      blk.transactions = bc.current_transactions ∧
      bc'.current_transactions = [] ∧
      bc'.chain = bc.chain ++ [blk] ∧
      bc'.nodes = bc.nodes) ∧
    (∀ sender recipient amount bc,
      (add_transaction sender recipient amount bc).1.current_transactions
          = bc.current_transactions ++ [⟨sender, recipient, amount⟩] ∧
      (add_transaction sender recipient amount bc).1.chain = bc.chain ∧
      (add_transaction sender recipient amount bc).1.nodes = bc.nodes) ∧
    (∀ address bc,
      (register_node netloc address bc).current_transactions
          = bc.current_transactions ∧
      (register_node netloc address bc).chain = bc.chain) ∧
    (∀ bc fetches bc' replaced,
      resolve_conflicts sha256hex jsonDumps bc fetches
          = some (bc', replaced) →
      bc'.current_transactions = bc.current_transactions ∧
      bc'.nodes = bc.nodes) := by
  refine ⟨?_, fun s r a bc => ⟨rfl, rfl, rfl⟩, ?_, ?_⟩
  · intro timestamp proof ph? bc bc' blk h
    rcases ph? with _ | v
    · rcases hlast : bc.chain.getLast? with _ | tip
      · rw [new_block_empty_none sha256hex jsonDumps timestamp proof bc
          hlast] at h
        exact Option.noConfusion h
      · rw [new_block_eq sha256hex jsonDumps timestamp proof none bc tip
          hlast] at h
        obtain ⟨h1, h2⟩ := Prod.mk.injEq .. ▸ Option.some.inj h
        subst h1
        subst h2
        exact ⟨rfl, rfl, rfl, rfl⟩
    · by_cases hv : v.truthy
      · rw [new_block_truthy_eq sha256hex jsonDumps timestamp proof v bc
          hv] at h
        obtain ⟨h1, h2⟩ := Prod.mk.injEq .. ▸ Option.some.inj h
        subst h1
        subst h2
        exact ⟨rfl, rfl, rfl, rfl⟩
      · rcases hlast : bc.chain.getLast? with _ | tip
        · rw [new_block_empty_falsy sha256hex jsonDumps timestamp proof v bc
            hv hlast] at h
          exact Option.noConfusion h
        · rw [new_block_eq sha256hex jsonDumps timestamp proof (some v) bc
            tip hlast] at h
          obtain ⟨h1, h2⟩ := Prod.mk.injEq .. ▸ Option.some.inj h
          subst h1
          subst h2
          exact ⟨rfl, rfl, rfl, rfl⟩
  · intro address bc
    unfold register_node
    constructor <;> (split <;> rfl)
  · intro bc fetches bc' replaced h
    have hrc : resolve_conflicts sha256hex jsonDumps bc fetches
        = match resolveGo sha256hex jsonDumps bc.chain.length none fetches
          with
          | none => none
          | some (_, none) => some (bc, false)
          | some (_, some c) =>
            if c.isEmpty then some (bc, false)
            else some ({ bc with chain := c }, true) := rfl
    rcases hgo : resolveGo sha256hex jsonDumps bc.chain.length none fetches
      with _ | ⟨m', nc'⟩
    · rw [hrc, hgo] at h
      exact Option.noConfusion h
    · rcases nc' with _ | c
      · have h2 : (some (bc, false) : Option (Blockchain × Bool))
            = some (bc', replaced) := by
          rw [← h, hrc, hgo]
        obtain ⟨hbc, _⟩ := Prod.mk.injEq .. ▸ Option.some.inj h2
        subst hbc
        exact ⟨rfl, rfl⟩
      · by_cases hemp : c.isEmpty
        · have h2 : (some (bc, false) : Option (Blockchain × Bool))
              = some (bc', replaced) := by
            rw [← h, hrc, hgo]
            exact (if_pos hemp).symm
          obtain ⟨hbc, _⟩ := Prod.mk.injEq .. ▸ Option.some.inj h2
          subst hbc
          exact ⟨rfl, rfl⟩
        · have h2 : (some ({ bc with chain := c }, true)
                : Option (Blockchain × Bool)) = some (bc', replaced) := by
            rw [← h, hrc, hgo]
            exact (if_neg hemp).symm
          obtain ⟨hbc, _⟩ := Prod.mk.injEq .. ▸ Option.some.inj h2
          subst hbc
          exact ⟨rfl, rfl⟩

def tx1 : Transaction := ⟨"alice", "bob", 5⟩

def tx2 : Transaction := ⟨"bob", "carol", 3⟩

def tx3 : Transaction := ⟨"carol", "dave", 2⟩

def rewardTx : Transaction := ⟨"0", "node1", 1⟩

/-- The fresh ledger after submitting three user transactions. -/
def pooled3 : Blockchain :=
  (add_transaction "carol" "dave" 2
    (add_transaction "bob" "carol" 3
      (add_transaction "alice" "bob" 5 (init 0)).1).1).1

/-- The same state after the reward transaction added by `/mine`. -/
def pooledR : Blockchain := (add_transaction "0" "node1" 1 pooled3).1

lemma pow_exists_100 : ∃ p, valid_proof constHash 100 p = true := ⟨0, rfl⟩

def minedResult : Option (Blockchain × Block) :=
  mine constHash constDump "node1" 9 pooled3 (genesis_block 0) pow_exists_100

def minedState : Blockchain :=
  (minedResult.getD ({ chain := [], current_transactions := [], nodes := [] },
    genesis_block 0)).1

def minedBlock : Block :=
  (minedResult.getD ({ chain := [], current_transactions := [], nodes := [] },
    genesis_block 0)).2

/-- C8 witness: submitting three transactions and mining yields a block
holding exactly those three plus the reward transaction, in order, and an
empty pool afterwards. -/
theorem pool_lifecycle_witness :
    minedBlock.transactions = [tx1, tx2, tx3, rewardTx] ∧
    minedState.current_transactions = [] ∧
    minedState.chain = pooledR.chain ++ [minedBlock] ∧
    minedState.nodes = pooledR.nodes ∧
    pooledR.current_transactions = [tx1, tx2, tx3, rewardTx] := by
  have h := (pool_lifecycle constHash constDump id).1 9
    (proof_of_work constHash 100 pow_exists_100) none pooledR minedState
    minedBlock rfl
  exact ⟨h.1.trans rfl, h.2.1, h.2.2.1, h.2.2.2, rfl⟩

lemma valid_chain_iff_chain' (sha256hex : String → String)
    (jsonDumps : Block → String) (chain : List Block) (hne : chain ≠ []) :
    valid_chain sha256hex jsonDumps chain = some true ↔
      List.Chain' (linkOk sha256hex jsonDumps) chain := by
  rcases chain with _ | ⟨b, rest⟩
  · exact absurd rfl hne
  · simp only [valid_chain, Option.some.injEq]
    exact validChainGo_iff_chain' sha256hex jsonDumps rest b

lemma valid_chain_append_tip (sha256hex : String → String)
    (jsonDumps : Block → String) (l : List Block) (tip B : Block)
    (hlast : l.getLast? = some tip)
    (hvalid : valid_chain sha256hex jsonDumps l = some true)
    (hprev : B.previous_hash = .str (hash sha256hex jsonDumps tip))
    (hproof : valid_proof sha256hex tip.proof B.proof = true) :
    valid_chain sha256hex jsonDumps (l ++ [B]) = some true := by
  have hne : l ≠ [] := by
    rintro rfl
    exact Option.noConfusion hlast
  rw [valid_chain_iff_chain' _ _ _ (by simp), List.chain'_append]
  refine ⟨(valid_chain_iff_chain' sha256hex jsonDumps l hne).mp hvalid,
    List.chain'_singleton _, ?_⟩
  intro x hx y hy
  rw [hlast] at hx
  obtain rfl : x = tip := (by simpa using hx : tip = x).symm
  obtain rfl : y = B := (by simpa using hy : B = y).symm
  exact ⟨hprev, hproof⟩

lemma map_index_append_tip (l : List Block) (B : Block)
    (hidx : l.map Block.index = List.range' 1 l.length)
    (hB : B.index = l.length + 1) :
    (l ++ [B]).map Block.index = List.range' 1 (l ++ [B]).length := by
  rw [List.map_append, hidx]
  simp [hB, List.range'_1_concat, Nat.add_comm]

/-- One mutating ledger operation, as exercised by the HTTP layer: a
transaction submission, or a mining step (`proof_of_work` on the tip's
proof, then `new_block` with that proof and no explicit `previous_hash`;
the `/mine` handler's reward submission is itself a `tx` step). -/
inductive Step (sha256hex : String → String) (jsonDumps : Block → String) :
    Blockchain → Blockchain → Prop where
  | tx (sender recipient : String) (amount : Int) (bc : Blockchain) :
      Step sha256hex jsonDumps bc
        (add_transaction sender recipient amount bc).1
  | mine (bc : Blockchain) (tip : Block) (timestamp : Nat)
      (htip : bc.chain.getLast? = some tip)
      (h : ∃ p, valid_proof sha256hex tip.proof p = true)
      (bc' : Blockchain) (blk : Block)
      (hnb : new_block sha256hex jsonDumps timestamp
          (proof_of_work sha256hex tip.proof h) none bc = some (bc', blk)) :
      Step sha256hex jsonDumps bc bc'

/-- C6: every state reachable from a freshly constructed ledger by
transaction submissions and mining steps passes the chain validator — so
each non-genesis block's `previous_hash` is the hash of its predecessor
and consecutive proofs satisfy `valid_proof` — the chain is never empty,
and block indices are contiguous starting at 1. -/
theorem reachable_chain_valid (sha256hex : String → String)
    (jsonDumps : Block → String) (timestamp : Nat) (bc : Blockchain)
    (hreach : Relation.ReflTransGen (Step sha256hex jsonDumps)
        (init timestamp) bc) :
    valid_chain sha256hex jsonDumps bc.chain = some true ∧
    bc.chain ≠ [] ∧
    bc.chain.map Block.index = List.range' 1 bc.chain.length := by
  induction hreach with
  | refl =>
    exact ⟨rfl, by simp [init], rfl⟩
  | @tail b c _ hstep ih =>
    obtain ⟨hvalid, hne, hidx⟩ := ih
    rcases hstep with ⟨s, r, a, _⟩ | ⟨_, tip, ts, htip, hpow, _, blk, hnb⟩
    · exact ⟨hvalid, hne, hidx⟩
    · rw [new_block_eq sha256hex jsonDumps ts
        (proof_of_work sha256hex tip.proof hpow) none b tip htip] at hnb
      obtain ⟨h1, h2⟩ := Prod.mk.injEq .. ▸ Option.some.inj hnb
      subst h1
      refine ⟨?_, by simp, ?_⟩
      · exact valid_chain_append_tip sha256hex jsonDumps b.chain tip _
          htip hvalid rfl (Nat.find_spec hpow)
      · exact map_index_append_tip b.chain _ hidx rfl

/-- C6 witness: the fresh ledger after one transaction submission
satisfies the invariant. -/
theorem reachable_chain_valid_witness :
    valid_chain constHash constDump
        ((add_transaction "alice" "bob" 5 (init 0)).1).chain = some true ∧
    ((add_transaction "alice" "bob" 5 (init 0)).1).chain ≠ [] ∧
    ((add_transaction "alice" "bob" 5 (init 0)).1).chain.map Block.index
      = List.range' 1
          ((add_transaction "alice" "bob" 5 (init 0)).1).chain.length :=
  reachable_chain_valid constHash constDump 0 _
    (Relation.ReflTransGen.single (Step.tx "alice" "bob" 5 (init 0)))

end Blockchain
